import Mathlib

/-
Verification of the SLIP-10 / Ed25519 key-derivation core of the
web3-wallet repository (src/src/ed25519Slip10.ts and
src/src/ed25519Slip10.js) against its natural-language specification.

Bytes are modelled as Nat (each value < 256), byte buffers as List Nat,
JS strings as List Char.  The external primitive used by the code,
HMAC-SHA512 from the noble-hashes library, is implemented here in full
(FIPS 180-4 SHA-512 and RFC 2104 HMAC) so that every definition is
executable and concrete claims can be settled by evaluation.

The noble-hashes entry point has the signature hmac(hash, key, message):
the argument right after the hash function is the HMAC key and the last
argument is the message.  All calls in the repository are translated
with that convention.
-/

namespace Slip10

/-! ## 64-bit word arithmetic (Nat with explicit mod 2^64) -/

def p64 : Nat := 2 ^ 64

def rotr64 (n x : Nat) : Nat := ((x >>> n) ||| (x <<< (64 - n))) % p64

def not64 (x : Nat) : Nat := x ^^^ (p64 - 1)

def bigS0 (x : Nat) : Nat := (rotr64 28 x ^^^ rotr64 34 x) ^^^ rotr64 39 x

def bigS1 (x : Nat) : Nat := (rotr64 14 x ^^^ rotr64 18 x) ^^^ rotr64 41 x

def smallS0 (x : Nat) : Nat := (rotr64 1 x ^^^ rotr64 8 x) ^^^ (x >>> 7)

def smallS1 (x : Nat) : Nat := (rotr64 19 x ^^^ rotr64 61 x) ^^^ (x >>> 6)

def chV (e f g : Nat) : Nat := (e &&& f) ^^^ (not64 e &&& g)

def majV (a b c : Nat) : Nat := ((a &&& b) ^^^ (a &&& c)) ^^^ (b &&& c)

/-! ## SHA-512 (FIPS 180-4) -/

/-- The 80 SHA-512 round constants. -/
def roundK : List Nat :=
  [4794697086780616226, 8158064640168781261, 13096744586834688815, 16840607885511220156,
   4131703408338449720, 6480981068601479193, 10538285296894168987, 12329834152419229976,
   15566598209576043074, 1334009975649890238, 2608012711638119052, 6128411473006802146,
   8268148722764581231, 9286055187155687089, 11230858885718282805, 13951009754708518548,
   16472876342353939154, 17275323862435702243, 1135362057144423861, 2597628984639134821,
   3308224258029322869, 5365058923640841347, 6679025012923562964, 8573033837759648693,
   10970295158949994411, 12119686244451234320, 12683024718118986047, 13788192230050041572,
   14330467153632333762, 15395433587784984357, 489312712824947311, 1452737877330783856,
   2861767655752347644, 3322285676063803686, 5560940570517711597, 5996557281743188959,
   7280758554555802590, 8532644243296465576, 9350256976987008742, 10552545826968843579,
   11727347734174303076, 12113106623233404929, 14000437183269869457, 14369950271660146224,
   15101387698204529176, 15463397548674623760, 17586052441742319658, 1182934255886127544,
   1847814050463011016, 2177327727835720531, 2830643537854262169, 3796741975233480872,
   4115178125766777443, 5681478168544905931, 6601373596472566643, 7507060721942968483,
   8399075790359081724, 8693463985226723168, 9568029438360202098, 10144078919501101548,
   10430055236837252648, 11840083180663258601, 13761210420658862357, 14299343276471374635,
   14566680578165727644, 15097957966210449927, 16922976911328602910, 17689382322260857208,
   500013540394364858, 748580250866718886, 1242879168328830382, 1977374033974150939,
   2944078676154940804, 3659926193048069267, 4368137639120453308, 4836135668995329356,
   5532061633213252278, 6448918945643986474, 6902733635092675308, 7801388544844847127]

/-- Working state of a SHA-512 compression: eight 64-bit words. -/
structure Hash8 where
  a : Nat
  b : Nat
  c : Nat
  d : Nat
  e : Nat
  f : Nat
  g : Nat
  h : Nat
  deriving DecidableEq, Repr

/-- The SHA-512 initial hash value. -/
def initH : Hash8 :=
  ⟨7640891576956012808, 13503953896175478587, 4354685564936845355, 11912009170470909681,
   5840696475078001361, 11170449401992604703, 2270897969802886507, 6620516959819538809⟩

/-- One step of message-schedule extension.  The schedule is kept reversed,
so the words W[t-2], W[t-7], W[t-15], W[t-16] sit at positions 1, 6, 14, 15. -/
def extendW : Nat → List Nat → List Nat
  | 0, ws => ws
  | n + 1, ws =>
      extendW n
        (((smallS1 (ws.getD 1 0) + ws.getD 6 0 + smallS0 (ws.getD 14 0) +
            ws.getD 15 0) % p64) :: ws)

/-- The 80-word message schedule of a 16-word block. -/
def scheduleW (block : List Nat) : List Nat := (extendW 64 block.reverse).reverse

/-- One SHA-512 round: mix in the round constant k and schedule word w. -/
def roundStep (st : Hash8) (k w : Nat) : Hash8 :=
  let t1 := (st.h + bigS1 st.e + chV st.e st.f st.g + k + w) % p64
  let t2 := (bigS0 st.a + majV st.a st.b st.c) % p64
  ⟨(t1 + t2) % p64, st.a, st.b, st.c, (st.d + t1) % p64, st.e, st.f, st.g⟩

/-- Compress one 16-word message block into the running state. -/
def compressBlock (st : Hash8) (block : List Nat) : Hash8 :=
  let fin := (roundK.zip (scheduleW block)).foldl
    (fun s kw => roundStep s kw.1 kw.2) st
  ⟨(st.a + fin.a) % p64, (st.b + fin.b) % p64, (st.c + fin.c) % p64,
   (st.d + fin.d) % p64, (st.e + fin.e) % p64, (st.f + fin.f) % p64,
   (st.g + fin.g) % p64, (st.h + fin.h) % p64⟩

/-- Big-endian serialization of a value into k bytes. -/
def toBytesBE : Nat → Nat → List Nat
  | 0, _ => []
  | k + 1, v => toBytesBE k (v / 256) ++ [v % 256]

/-- Big-endian deserialization of a byte list into one word. -/
def wordOfBytes (bs : List Nat) : Nat := bs.foldl (fun acc b => acc * 256 + b) 0

/-- Split a list into chunks of size k (fuel-driven structural recursion). -/
def chunksGo (k : Nat) : Nat → List Nat → List (List Nat)
  | 0, _ => []
  | _ + 1, [] => []
  | n + 1, xs => xs.take k :: chunksGo k n (xs.drop k)

def chunks (k : Nat) (xs : List Nat) : List (List Nat) := chunksGo k xs.length xs

/-- SHA-512 padding: 0x80, zeros to 112 mod 128, then the 128-bit
big-endian bit length. -/
def padMsg (msg : List Nat) : List Nat :=
  msg ++ 0x80 :: List.replicate ((128 - (msg.length + 17) % 128) % 128) 0 ++
    toBytesBE 16 (8 * msg.length)

/-- A 128-byte block as sixteen big-endian 64-bit words. -/
def blockWords (block : List Nat) : List Nat := (chunks 8 block).map wordOfBytes

/-- Serialize a final state into the 64-byte digest. -/
def digestBytes (st : Hash8) : List Nat :=
  toBytesBE 8 st.a ++ toBytesBE 8 st.b ++ toBytesBE 8 st.c ++ toBytesBE 8 st.d ++
    toBytesBE 8 st.e ++ toBytesBE 8 st.f ++ toBytesBE 8 st.g ++ toBytesBE 8 st.h

/-- SHA-512 of a byte list; the digest is a list of 64 bytes. -/
def sha512 (msg : List Nat) : List Nat :=
  digestBytes (((chunks 128 (padMsg msg)).map blockWords).foldl compressBlock initH)

/-! ## HMAC-SHA512 (RFC 2104), block size 128 bytes.
hmacSha512 key msg is HMAC keyed by key over message msg, matching the
noble-hashes call hmac(sha512, key, msg). -/

def hmacSha512 (key msg : List Nat) : List Nat :=
  let k1 := if 128 < key.length then sha512 key else key
  let k0 := k1 ++ List.replicate (128 - k1.length) 0
  sha512 ((k0.map (fun b => b ^^^ 0x5c)) ++
    sha512 ((k0.map (fun b => b ^^^ 0x36)) ++ msg))

/-! ## JavaScript string primitives

JS strings are modelled as List Char.  Only the operations the two source
files use are modelled: startsWith with a one-character prefix, endsWith
with a one-character suffix, split on the one-character separator, slice,
and parseInt with radix 10. -/

/-- JS s.startsWith(c) for a one-character prefix c. -/
def jsStartsWithChar (c : Char) : List Char → Bool
  | [] => false
  | x :: _ => x = c

/-- JS s.endsWith(c) for a one-character suffix c. -/
def jsEndsWith (c : Char) (s : List Char) : Bool := s.getLast? = some c

/-- JS s.split(sep) for a one-character separator: an empty string yields
one empty piece, and every occurrence of sep starts a new piece. -/
def jsSplit (sep : Char) : List Char → List (List Char)
  | [] => [[]]
  | c :: cs =>
      if c = sep then [] :: jsSplit sep cs
      else
        match jsSplit sep cs with
        | [] => [[c]]
        | t :: ts => (c :: t) :: ts

/-- The whitespace characters skipped by JS parseInt (ECMA StrWhiteSpace:
tab, line feed, vertical tab, form feed, carriage return, space,
no-break space, line and paragraph separators, byte order mark). -/
def jsIsSpace (c : Char) : Bool :=
  c == ' ' || c == '\t' || c == '\n' || c == '\r' || c.toNat == 11 ||
    c.toNat == 12 || c.toNat == 0xa0 || c.toNat == 0x2028 ||
    c.toNat == 0x2029 || c.toNat == 0xfeff

/-- Value of a list of decimal digit characters. -/
def digitsVal (ds : List Char) : Nat :=
  ds.foldl (fun acc c => 10 * acc + (c.toNat - 48)) 0

/-- JS parseInt(s, 10): skip leading whitespace, read an optional sign,
then the longest prefix of decimal digits; none is NaN, modelled as
Option.none.  The numeric value is modelled as an exact integer (JS
returns a binary64 float, which is exact for values below 2 to the 53). -/
def parseIntTen (s : List Char) : Option Int :=
  let s1 := s.dropWhile jsIsSpace
  let signBody : Bool × List Char :=
    match s1 with
    | c :: cs => if c = '-' then (true, cs) else if c = '+' then (false, cs)
        else (false, s1)
    | [] => (false, [])
  let ds := signBody.2.takeWhile Char.isDigit
  if ds.isEmpty then none
  else some ((if signBody.1 then -1 else 1) * (digitsVal ds : Int))

/-! ## JavaScript 32-bit number primitives -/

/-- ECMA ToInt32 of an integral number. -/
def toInt32 (n : Int) : Int := (n + 2 ^ 31) % 2 ^ 32 - 2 ^ 31

/-- ECMA ToUint32 of an integral number (also the result of the JS
operator x >>> 0). -/
def toUint32 (n : Int) : Nat := (n % 2 ^ 32).toNat

/-- The JS bitwise operator a | b: both sides through ToInt32, bitwise or
of the two 32-bit patterns, reinterpreted as a signed 32-bit value. -/
def jsOr (a b : Int) : Int :=
  toInt32 ((toUint32 a ||| toUint32 b : Nat) : Int)

/-- The expression (idx | 0x80000000) >>> 0 shared by both parsers. -/
def hardenIndex (n : Int) : Nat := toUint32 (jsOr n 0x80000000)

/-! ## Shared data model -/

/-- The result of a derivation: a key and a chain code (byte buffers). -/
structure ExtendedKey where
  key : List Nat
  chainCode : List Nat
  deriving DecidableEq, Repr

/-- The two error kinds of the core, per the thrown messages
(the path-format error and the per-segment error carrying the segment). -/
inductive DeriveError where
  | invalidPathFormat
  | invalidPathSegment (seg : List Char)
  deriving DecidableEq, Repr

/-- Uint8Array.prototype.set: overwrite dst from offset off with src. -/
def setRange (dst : List Nat) (off : Nat) (src : List Nat) : List Nat :=
  dst.take off ++ src ++ dst.drop (off + src.length)

/-- DataView.prototype.setUint32 with big-endian byte order: the value
goes through ToUint32 and is stored as 4 big-endian bytes. -/
def setUint32BE (dst : List Nat) (off : Nat) (v : Nat) : List Nat :=
  setRange dst off (toBytesBE 4 (v % 2 ^ 32))

end Slip10

namespace Slip10.TS

/-! ## The TypeScript implementation, src/src/ed25519Slip10.ts

Every definition in this namespace is a direct translation of the file;
comments give the source lines.  Note the argument order of the calls
into noble-hashes: hmac(sha512, seed, SEED_KEY) keys the HMAC with the
seed, and hmac(sha512, buf, chainCode) keys it with the 37-byte buffer. -/

/-- Line 4: the ASCII bytes of the string literal. -/
def SEED_KEY : List Nat := "ed25519 seed".data.map Char.toNat

/-- Line 12: the regex replace stripping one trailing apostrophe or h. -/
def stripHardenMarker (seg : List Char) : List Char :=
  if seg.getLast? = some '\'' ∨ seg.getLast? = some 'h' then seg.dropLast
  else seg

/-- Lines 12 to 14: the body of the map over the path segments. -/
def parseSeg (seg : List Char) : Except DeriveError Nat :=
  match parseIntTen (stripHardenMarker seg) with
  | none => .error (.invalidPathSegment seg)
  | some idx => .ok (hardenIndex idx)

/-- The map over segments; the first thrown error aborts the whole map. -/
def parseSegs : List (List Char) → Except DeriveError (List Nat)
  | [] => .ok []
  | seg :: rest =>
      match parseSeg seg with
      | .error e => .error e
      | .ok i =>
          match parseSegs rest with
          | .error e => .error e
          | .ok is => .ok (i :: is)

/-- Lines 6 to 16: parsePath. -/
def parsePath (path : List Char) : Except DeriveError (List Nat) :=
  if jsStartsWithChar 'm' path then parseSegs ((jsSplit '/' path).drop 1)
  else .error .invalidPathFormat

/-- Lines 19 to 21: hmac(sha512, seed, SEED_KEY) keyed by the seed, split
by slice(0, 32) and slice(32). -/
def masterKey (seed : List Nat) : ExtendedKey :=
  let master := hmacSha512 seed SEED_KEY
  ⟨master.take 32, master.drop 32⟩

/-- Lines 24 to 29: one loop iteration.  A fresh zeroed Uint8Array(37),
buf.set(key, 1), setUint32(33, index, false), then
hmac(sha512, buf, chainCode) keyed by the buffer. -/
def childStep (ek : ExtendedKey) (index : Nat) : ExtendedKey :=
  let buf := setUint32BE (setRange (List.replicate 37 0) 1 ek.key) 33 index
  let I := hmacSha512 buf ek.chainCode
  ⟨I.take 32, I.drop 32⟩

/-- Lines 18 to 33: derivePath. -/
def derivePath (seed : List Nat) (path : List Char) :
    Except DeriveError ExtendedKey :=
  match parsePath path with
  | .error e => .error e
  | .ok idxs => .ok (idxs.foldl childStep (masterKey seed))

/-- derivePath instrumented with the number of HMAC computations the
function performs, following the statement order of the source: the
master HMAC on line 19 runs before parsePath is invoked on line 23
(the for-of head), and each loop iteration then runs one more HMAC. -/
def derivePathCounted (seed : List Nat) (path : List Char) :
    Nat × Except DeriveError ExtendedKey :=
  let ek := masterKey seed
  match parsePath path with
  | .error e => (1, .error e)
  | .ok idxs => (1 + idxs.length, .ok (idxs.foldl childStep ek))

end Slip10.TS

namespace Slip10.JS

/-! ## The JavaScript implementation, src/src/ed25519Slip10.js

A direct translation; comments give the source lines.  The helper
hmacSha512 on lines 9 to 11 swaps its own arguments into noble-hashes:
hmac(sha512, data, key) keys the HMAC with data, not with key. -/

/-- Line 7: the ASCII bytes of the string literal. -/
def ED25519_SEED : List Nat := "ed25519 seed".data.map Char.toNat

/-- Lines 9 to 11: return hmac(sha512, data, key), so the noble-hashes
key argument receives data and the message argument receives key. -/
def hmacSha512 (key data : List Nat) : List Nat := Slip10.hmacSha512 data key

/-- Lines 17 to 21: the body of the map over the path segments. -/
def parseSeg (p : List Char) : Except DeriveError Nat :=
  let hardened := jsEndsWith '\'' p || jsEndsWith 'h' p
  match parseIntTen (if hardened then p.dropLast else p) with
  | none => .error (.invalidPathSegment p)
  | some index => .ok (hardenIndex index)

/-- The map over segments; the first thrown error aborts the whole map. -/
def parseSegs : List (List Char) → Except DeriveError (List Nat)
  | [] => .ok []
  | seg :: rest =>
      match parseSeg seg with
      | .error e => .error e
      | .ok i =>
          match parseSegs rest with
          | .error e => .error e
          | .ok is => .ok (i :: is)

/-- Lines 13 to 23: parsePath. -/
def parsePath (path : List Char) : Except DeriveError (List Nat) :=
  if jsStartsWithChar 'm' path then parseSegs ((jsSplit '/' path).drop 1)
  else .error .invalidPathFormat

/-- Lines 41 to 52: one loop iteration.  data has length
1 + privKey.length + 4, data[0] = 0, data.set(privKey, 1), the last four
bytes hold the big-endian index, then hmacSha512(chainCode, data), whose
body keys the HMAC with data. -/
def childStep (ek : ExtendedKey) (index : Nat) : ExtendedKey :=
  let len := 1 + ek.key.length + 4
  let d1 := (List.replicate len 0).set 0 0x00
  let d2 := setRange d1 1 ek.key
  let d3 := d2.set (len - 4) (((index % 2 ^ 32) >>> 24) &&& 0xff)
  let d4 := d3.set (len - 3) (((index % 2 ^ 32) >>> 16) &&& 0xff)
  let d5 := d4.set (len - 2) (((index % 2 ^ 32) >>> 8) &&& 0xff)
  let data := d5.set (len - 1) ((index % 2 ^ 32) &&& 0xff)
  let I2 := hmacSha512 ek.chainCode data
  ⟨I2.take 32, (I2.drop 32).take 32⟩

/-- Lines 31 to 56: derivePath.  Line 33 computes
hmacSha512(ED25519_SEED, seed), whose body keys the HMAC with the seed;
the halves are slice(0, 32) and slice(32, 64). -/
def derivePath (seed : List Nat) (path : List Char) :
    Except DeriveError ExtendedKey :=
  let I := hmacSha512 ED25519_SEED seed
  let privKey := I.take 32
  let chainCode := (I.drop 32).take 32
  match parsePath path with
  | .error e => .error e
  | .ok indices => .ok (indices.foldl childStep ⟨privKey, chainCode⟩)

end Slip10.JS

namespace Slip10

/-! ## Basic lemmas about the embedding -/

theorem toBytesBE_length (k v : Nat) : (toBytesBE k v).length = k := by
  induction k generalizing v with
  | zero => rfl
  | succ k ih => simp [toBytesBE, ih]

theorem digestBytes_length (st : Hash8) : (digestBytes st).length = 64 := by
  simp [digestBytes, toBytesBE_length]

theorem sha512_length (msg : List Nat) : (sha512 msg).length = 64 :=
  digestBytes_length _

theorem hmacSha512_length (key msg : List Nat) :
    (hmacSha512 key msg).length = 64 :=
  sha512_length _

theorem intPow32 : (2 : Int) ^ 32 = 4294967296 := by norm_num

theorem toUint32_lt (n : Int) : toUint32 n < 2 ^ 32 := by
  unfold toUint32
  rw [intPow32]
  omega

theorem toUint32_toInt32 (n : Int) : toUint32 (toInt32 n) = toUint32 n := by
  unfold toUint32 toInt32
  rw [intPow32, show (2 : Int) ^ 31 = 2147483648 from by norm_num]
  omega

theorem toUint32_ofNat (p : Nat) (h : p < 2 ^ 32) : toUint32 (p : Int) = p := by
  unfold toUint32
  rw [intPow32]
  omega

/-- The parsed index in closed form: the two ToInt32 conversions, the
32-bit or and the final unsigned shift collapse to a mod and an or. -/
theorem hardenIndex_eq (n : Int) :
    hardenIndex n = (n % 2 ^ 32).toNat ||| 0x80000000 := by
  unfold hardenIndex jsOr
  rw [toUint32_toInt32]
  have h1 : toUint32 (0x80000000 : Int) = 0x80000000 := by decide
  rw [h1]
  have h2 : toUint32 n ||| 0x80000000 < 2 ^ 32 :=
    Nat.or_lt_two_pow (toUint32_lt n) (by norm_num)
  rw [toUint32_ofNat _ h2]
  rfl

theorem hardenIndex_ge (n : Int) : 0x80000000 ≤ hardenIndex n := by
  rw [hardenIndex_eq]
  have hb : ((n % 2 ^ 32).toNat ||| 0x80000000).testBit 31 = true := by
    rw [Nat.testBit_lor]
    have h31 : (0x80000000 : Nat).testBit 31 = true := by decide
    simp [h31]
  have hge := Nat.testBit_implies_ge hb
  norm_num at hge ⊢
  exact hge

theorem hardenIndex_lt (n : Int) : hardenIndex n < 2 ^ 32 := by
  rw [hardenIndex_eq]
  refine Nat.or_lt_two_pow ?_ (by norm_num)
  rw [intPow32]
  omega

end Slip10

namespace Slip10

/-! ## Equivalence of the two parsers -/

theorem parseSeg_eq (seg : List Char) : JS.parseSeg seg = TS.parseSeg seg := by
  unfold JS.parseSeg TS.parseSeg TS.stripHardenMarker jsEndsWith
  by_cases h1 : seg.getLast? = some '\''
  · simp [h1]
  · by_cases h2 : seg.getLast? = some 'h'
    · simp [h1, h2]
    · simp [h1, h2]

theorem parseSegs_eq (segs : List (List Char)) :
    JS.parseSegs segs = TS.parseSegs segs := by
  induction segs with
  | nil => rfl
  | cons s rest ih => simp [JS.parseSegs, TS.parseSegs, parseSeg_eq, ih]

theorem parsePath_eq (path : List Char) : JS.parsePath path = TS.parsePath path := by
  unfold JS.parsePath TS.parsePath
  by_cases h : jsStartsWithChar 'm' path
  · simp [h, parseSegs_eq]
  · simp [h]

/-! ## Equivalence of the two child-derivation steps -/

theorem toBytesBE_four (w : Nat) :
    toBytesBE 4 w =
      [(w >>> 24) &&& 0xff, (w >>> 16) &&& 0xff, (w >>> 8) &&& 0xff, w &&& 0xff] := by
  have hmask : ∀ x : Nat, x &&& 255 = x % 256 := fun x => by
    have h := Nat.and_pow_two_sub_one_eq_mod x 8
    norm_num at h
    exact h
  simp only [toBytesBE, Nat.shiftRight_eq_div_pow, hmask, List.nil_append,
    List.cons_append, Nat.div_div_eq_div_mul]

theorem setRange_replicate37 (key : List Nat) (hk : key.length = 32) :
    setRange (List.replicate 37 0) 1 key = 0 :: key ++ [0, 0, 0, 0] := by
  unfold setRange
  rw [hk]
  simp [List.take_replicate, List.drop_replicate]

theorem set_after33 (key : List Nat) (hk : key.length = 32) (t : List Nat)
    (j v : Nat) :
    ((0 :: key) ++ t).set (33 + j) v = (0 :: key) ++ t.set j v := by
  rw [List.set_append]
  have hl : (0 :: key).length = 33 := by simp [hk]
  rw [hl]
  have hnot : ¬ (33 + j < 33) := by omega
  simp [hnot]

theorem split64_eq (l : List Nat) (hl : l.length = 64) :
    (⟨l.take 32, l.drop 32⟩ : ExtendedKey) = ⟨l.take 32, (l.drop 32).take 32⟩ := by
  have h : (l.drop 32).take 32 = l.drop 32 := List.take_of_length_le (by simp [hl])
  rw [h]

theorem childStep_eq (ek : ExtendedKey) (i : Nat) (hk : ek.key.length = 32) :
    TS.childStep ek i = JS.childStep ek i := by
  simp only [TS.childStep, JS.childStep, setUint32BE, hk]
  rw [setRange_replicate37 ek.key hk]
  have hset0 : (List.replicate (1 + 32 + 4) 0).set 0 0x00 =
      List.replicate 37 0 := by decide
  rw [hset0, setRange_replicate37 ek.key hk]
  have hbuf : setRange ((0 :: ek.key) ++ [0, 0, 0, 0]) 33
      (toBytesBE 4 (i % 2 ^ 32)) = (0 :: ek.key) ++ toBytesBE 4 (i % 2 ^ 32) := by
    unfold setRange
    rw [toBytesBE_length]
    rw [show (33 : Nat) = (0 :: ek.key).length from by simp [hk]]
    rw [List.take_left]
    rw [List.drop_eq_nil_of_le (by simp [hk])]
    rw [List.append_nil]
  rw [hbuf]
  rw [show (1 + 32 + 4 - 4 : Nat) = 33 + 0 from rfl,
      show (1 + 32 + 4 - 3 : Nat) = 33 + 1 from rfl,
      show (1 + 32 + 4 - 2 : Nat) = 33 + 2 from rfl,
      show (1 + 32 + 4 - 1 : Nat) = 33 + 3 from rfl]
  rw [set_after33 ek.key hk, set_after33 ek.key hk, set_after33 ek.key hk,
      set_after33 ek.key hk]
  rw [toBytesBE_four]
  rw [JS.hmacSha512]
  exact split64_eq _ (hmacSha512_length _ _)

theorem childStepJS_key_length (ek : ExtendedKey) (i : Nat) :
    (JS.childStep ek i).key.length = 32 := by
  simp [JS.childStep, JS.hmacSha512, hmacSha512_length]

theorem childStepTS_lengths (ek : ExtendedKey) (i : Nat) :
    (TS.childStep ek i).key.length = 32 ∧
      (TS.childStep ek i).chainCode.length = 32 := by
  simp [TS.childStep, hmacSha512_length]

theorem masterKey_lengths (seed : List Nat) :
    (TS.masterKey seed).key.length = 32 ∧
      (TS.masterKey seed).chainCode.length = 32 := by
  simp [TS.masterKey, hmacSha512_length]

theorem seedKey_eq : TS.SEED_KEY = JS.ED25519_SEED := rfl

theorem masterKey_eq (seed : List Nat) :
    TS.masterKey seed =
      ⟨(hmacSha512 seed JS.ED25519_SEED).take 32,
        ((hmacSha512 seed JS.ED25519_SEED).drop 32).take 32⟩ := by
  unfold TS.masterKey
  rw [seedKey_eq]
  exact split64_eq _ (hmacSha512_length _ _)

theorem foldl_childStep_eq (idxs : List Nat) (ek : ExtendedKey)
    (hk : ek.key.length = 32) :
    idxs.foldl TS.childStep ek = idxs.foldl JS.childStep ek := by
  induction idxs generalizing ek with
  | nil => rw [List.foldl_nil, List.foldl_nil]
  | cons i rest ih =>
      rw [List.foldl_cons, List.foldl_cons, childStep_eq ek i hk]
      exact ih _ (childStepJS_key_length ek i)

theorem foldl_childStep_lengths (idxs : List Nat) (ek : ExtendedKey)
    (hek : ek.key.length = 32 ∧ ek.chainCode.length = 32) :
    (idxs.foldl TS.childStep ek).key.length = 32 ∧
      (idxs.foldl TS.childStep ek).chainCode.length = 32 := by
  induction idxs generalizing ek with
  | nil => exact hek
  | cons i rest ih =>
      rw [List.foldl_cons]
      exact ih _ (childStepTS_lengths ek i)

theorem scanl_childStep_lengths (idxs : List Nat) (ek : ExtendedKey)
    (hek : ek.key.length = 32 ∧ ek.chainCode.length = 32) :
    List.Forall (fun st => st.key.length = 32 ∧ st.chainCode.length = 32)
      (List.scanl TS.childStep ek idxs) := by
  induction idxs generalizing ek with
  | nil => simpa [List.scanl] using hek
  | cons i rest ih =>
      simp only [List.scanl, List.forall_cons]
      exact ⟨hek, ih _ (childStepTS_lengths ek i)⟩

/-! ## Facts about the parser -/

theorem parseSeg_ok_hardened (s : List Char) (i : Nat)
    (h : TS.parseSeg s = .ok i) : 0x80000000 ≤ i := by
  unfold TS.parseSeg at h
  cases hp : parseIntTen (TS.stripHardenMarker s) with
  | none => rw [hp] at h; exact absurd h (by simp)
  | some n =>
      rw [hp] at h
      have hi : hardenIndex n = i := by
        simpa using h
      rw [← hi]
      exact hardenIndex_ge n

theorem parseSeg_isOk (s : List Char)
    (h : parseIntTen (TS.stripHardenMarker s) ≠ none) :
    ∃ i, TS.parseSeg s = .ok i := by
  cases hp : parseIntTen (TS.stripHardenMarker s) with
  | none => exact absurd hp h
  | some n => exact ⟨hardenIndex n, by unfold TS.parseSeg; rw [hp]⟩

theorem parseSegs_mem_hardened (segs : List (List Char)) (idxs : List Nat)
    (h : TS.parseSegs segs = .ok idxs) : ∀ i ∈ idxs, 0x80000000 ≤ i := by
  induction segs generalizing idxs with
  | nil =>
      unfold TS.parseSegs at h
      have : idxs = [] := by simpa using h.symm
      subst this
      intro i hi
      cases hi
  | cons s rest ih =>
      unfold TS.parseSegs at h
      cases hs : TS.parseSeg s with
      | error e => rw [hs] at h; exact absurd h (by simp)
      | ok j =>
          rw [hs] at h
          cases hr : TS.parseSegs rest with
          | error e => rw [hr] at h; exact absurd h (by simp)
          | ok js =>
              rw [hr] at h
              have : j :: js = idxs := by simpa using h
              subst this
              intro i hi
              rcases List.mem_cons.mp hi with h1 | h2
              · subst h1; exact parseSeg_ok_hardened s i hs
              · exact ih js hr i h2

theorem parseSegs_error_of_bad (segs : List (List Char))
    (h : ∃ s ∈ segs, parseIntTen (TS.stripHardenMarker s) = none) :
    ∃ s, parseIntTen (TS.stripHardenMarker s) = none ∧
      TS.parseSegs segs = .error (.invalidPathSegment s) := by
  induction segs with
  | nil => rcases h with ⟨s, hs, _⟩; cases hs
  | cons a rest ih =>
      by_cases ha : parseIntTen (TS.stripHardenMarker a) = none
      · refine ⟨a, ha, ?_⟩
        unfold TS.parseSegs TS.parseSeg
        rw [ha]
      · rcases h with ⟨s, hs, hnone⟩
        have hs' : s ∈ rest := by
          rcases List.mem_cons.mp hs with h1 | h2
          · exact absurd (h1 ▸ hnone) ha
          · exact h2
        rcases ih ⟨s, hs', hnone⟩ with ⟨t, ht, hEq⟩
        refine ⟨t, ht, ?_⟩
        rcases parseSeg_isOk a ha with ⟨j, hj⟩
        unfold TS.parseSegs
        rw [hj, hEq]

/-! ## Facts about jsSplit -/

theorem jsSplit_no_sep (sep : Char) (s : List Char) (h : sep ∉ s) :
    jsSplit sep s = [s] := by
  induction s with
  | nil => rfl
  | cons c cs ih =>
      have hc : ¬ (c = sep) := fun e => h (e ▸ List.mem_cons_self c cs)
      have hcs : sep ∉ cs := fun m => h (List.mem_cons_of_mem c m)
      simp [jsSplit, hc, ih hcs]

theorem jsSplit_append (sep : Char) (s rest : List Char) (h : sep ∉ s) :
    jsSplit sep (s ++ sep :: rest) = s :: jsSplit sep rest := by
  induction s with
  | nil => simp [jsSplit]
  | cons c cs ih =>
      have hc : ¬ (c = sep) := fun e => h (e ▸ List.mem_cons_self c cs)
      have hcs : sep ∉ cs := fun m => h (List.mem_cons_of_mem c m)
      simp only [List.cons_append, jsSplit, hc, if_false, List.append_eq]
      rw [ih hcs]

instance exceptDecEq {e a : Type} [DecidableEq e] [DecidableEq a] :
    DecidableEq (Except e a)
  | .error x, .error y => decidable_of_iff (x = y) (by simp)
  | .error _, .ok _ => isFalse (by simp)
  | .ok _, .error _ => isFalse (by simp)
  | .ok x, .ok y => decidable_of_iff (x = y) (by simp)

/-! ## Claim theorems -/

/-- Claim C8: for every seed and every path string, derivePath of
ed25519Slip10.ts and derivePath of ed25519Slip10.js are extensionally
equal: on every input they fail with the same error (path not starting
with m, or an unparseable segment) or return byte-identical key and
chainCode values. -/
theorem derivePath_ts_js_equivalent (seed : List Nat) (path : List Char) :
    TS.derivePath seed path = JS.derivePath seed path := by
  simp only [TS.derivePath, JS.derivePath, parsePath_eq]
  cases h : TS.parsePath path with
  | error e => rfl
  | ok idxs =>
      rw [masterKey_eq seed]
      refine congrArg Except.ok (foldl_childStep_eq idxs _ ?_)
      simp [hmacSha512_length]

/-- Claim C5: the path string with segments 44h, 501h, 0h, 0h (written
with apostrophes) parses, in both implementations, to exactly the
index sequence 0x8000002C, 0x800001F5, 0x80000000, 0x80000000. -/
theorem parsePath_solana_vector :
    TS.parsePath "m/44'/501'/0'/0'".data =
        .ok [0x8000002C, 0x800001F5, 0x80000000, 0x80000000] ∧
      JS.parsePath "m/44'/501'/0'/0'".data =
        .ok [0x8000002C, 0x800001F5, 0x80000000, 0x80000000] := by
  constructor
  · decide
  · decide

/-- Claim C6: for every path string on which parsing succeeds, every
index of the result has its most significant bit set, that is, its
value is at least 0x80000000, whether or not the segment carried a
hardening suffix. -/
theorem parsePath_indices_hardened (path : List Char) (idxs : List Nat)
    (h : TS.parsePath path = .ok idxs) : ∀ i ∈ idxs, 0x80000000 ≤ i := by
  unfold TS.parsePath at h
  by_cases hm : jsStartsWithChar 'm' path
  · rw [if_pos hm] at h
    exact parseSegs_mem_hardened _ idxs h
  · rw [if_neg hm] at h
    exact absurd h (by simp)

/-- Witness for C6 at the concrete path m/0. -/
theorem parsePath_indices_hardened_witness :
    TS.parsePath "m/0".data = .ok [0x80000000] ∧
      (0x80000000 : Nat) ≤ 0x80000000 :=
  ⟨by decide,
    parsePath_indices_hardened "m/0".data [0x80000000] (by decide)
      0x80000000 (by decide)⟩

/-- Claim C10: a segment that parses to the numeric value n is turned
into the index (n mod 2 to the 32) or 0x80000000, so values outside the
31-bit range silently wrap: the path m/2147483648 parses to the same
index as m/0 and derives the same extended key for every seed. -/
theorem parseSeg_wraps_mod32 :
    (∀ (seg : List Char) (n : Int),
        parseIntTen (TS.stripHardenMarker seg) = some n →
        TS.parseSeg seg = .ok ((n % 2 ^ 32).toNat ||| 0x80000000)) ∧
      TS.parsePath "m/2147483648".data = TS.parsePath "m/0".data ∧
      ∀ seed : List Nat,
        TS.derivePath seed "m/2147483648".data =
          TS.derivePath seed "m/0".data := by
  refine ⟨?_, ?_, ?_⟩
  · intro seg n h
    unfold TS.parseSeg
    rw [h]
    show Except.ok (hardenIndex n) = _
    rw [hardenIndex_eq]
  · decide
  · intro seed
    unfold TS.derivePath
    rw [show TS.parsePath "m/2147483648".data = TS.parsePath "m/0".data from
      by decide]

/-- Witness for C10: the segment 2147483648 itself. -/
theorem parseSeg_wraps_mod32_witness :
    TS.parseSeg "2147483648".data =
      .ok (((2147483648 : Int) % 2 ^ 32).toNat ||| 0x80000000) :=
  parseSeg_wraps_mod32.1 "2147483648".data 2147483648 (by decide)

/-- Claim C3: for every seed and every path (beginning with the root
marker m, so that the parser reaches its segments) containing a segment
whose remainder after stripping an optional trailing hardening suffix
does not parse as a base-10 integer, derive fails with the
invalid-path-segment error; in particular derive(seed, m/abc-apostrophe)
fails with that error. -/
theorem derivePath_invalid_segment :
    (∀ (seed : List Nat) (path : List Char),
        jsStartsWithChar 'm' path = true →
        (∃ s ∈ (jsSplit '/' path).drop 1,
            parseIntTen (TS.stripHardenMarker s) = none) →
        ∃ s, parseIntTen (TS.stripHardenMarker s) = none ∧
          TS.derivePath seed path = .error (.invalidPathSegment s)) ∧
      ∀ seed : List Nat,
        TS.derivePath seed "m/abc'".data =
          .error (.invalidPathSegment "abc'".data) := by
  constructor
  · intro seed path hm hbad
    rcases parseSegs_error_of_bad _ hbad with ⟨s, hsnone, hserr⟩
    refine ⟨s, hsnone, ?_⟩
    unfold TS.derivePath TS.parsePath
    rw [hm]
    simp only [if_true, hserr]
  · intro seed
    unfold TS.derivePath
    rw [show TS.parsePath "m/abc'".data =
      .error (.invalidPathSegment "abc'".data) from by decide]

/-- Witness for C3 at the concrete path of the claim. -/
theorem derivePath_invalid_segment_witness :
    jsStartsWithChar 'm' "m/abc'".data = true ∧
      TS.derivePath [0] "m/abc'".data =
        .error (.invalidPathSegment "abc'".data) :=
  ⟨by decide, derivePath_invalid_segment.2 [0]⟩

/-- Claim C7: for every seed and every path, whenever derive returns a
value its key and chainCode are exactly 32 bytes, and every intermediate
extended key threaded through the fold (the scanl prefix states, master
included) also has 32-byte key and chainCode. -/
theorem derivePath_lengths_32 (seed : List Nat) (path : List Char) :
    (match TS.derivePath seed path with
      | .ok ek => ek.key.length = 32 ∧ ek.chainCode.length = 32
      | .error _ => True) ∧
      (match TS.parsePath path with
        | .ok idxs =>
            List.Forall
              (fun st => st.key.length = 32 ∧ st.chainCode.length = 32)
              (List.scanl TS.childStep (TS.masterKey seed) idxs)
        | .error _ => True) := by
  constructor
  · unfold TS.derivePath
    cases h : TS.parsePath path with
    | error e => simp
    | ok idxs =>
        simp only []
        exact foldl_childStep_lengths idxs _ (masterKey_lengths seed)
  · cases h : TS.parsePath path with
    | error e => simp
    | ok idxs =>
        simp only []
        exact scanl_childStep_lengths idxs _ (masterKey_lengths seed)

/-- Claim C9: the root-marker check accepts any first segment beginning
with m and discards it entirely: a path whose slash-free first segment
starts with m derives exactly as the corresponding path whose first
segment is exactly m, with and without further segments. -/
theorem derivePath_root_marker_lenient (seed : List Nat)
    (first rest : List Char) (h1 : jsStartsWithChar 'm' first = true)
    (h2 : '/' ∉ first) :
    TS.derivePath seed (first ++ '/' :: rest) =
        TS.derivePath seed ('m' :: '/' :: rest) ∧
      TS.derivePath seed first = TS.derivePath seed ['m'] := by
  have hfirst : jsStartsWithChar 'm' (first ++ '/' :: rest) = true := by
    cases first with
    | nil => simp [jsStartsWithChar] at h1
    | cons c cs => simpa [jsStartsWithChar] using h1
  have hM : jsStartsWithChar 'm' ('m' :: '/' :: rest) = true := by
    simp [jsStartsWithChar]
  have hMM : jsStartsWithChar 'm' (['m'] : List Char) = true := by
    simp [jsStartsWithChar]
  have hsplit1 : jsSplit '/' (first ++ '/' :: rest) = first :: jsSplit '/' rest :=
    jsSplit_append '/' first rest h2
  have hsplit2 : jsSplit '/' ('m' :: '/' :: rest) = ['m'] :: jsSplit '/' rest := by
    simp [jsSplit]
  have hp1 : TS.parsePath (first ++ '/' :: rest) =
      TS.parsePath ('m' :: '/' :: rest) := by
    unfold TS.parsePath
    rw [hfirst, hM, hsplit1, hsplit2]
    simp
  have hsplit3 : jsSplit '/' first = [first] := jsSplit_no_sep '/' first h2
  have hp2 : TS.parsePath first = TS.parsePath ['m'] := by
    unfold TS.parsePath
    rw [h1, hMM, hsplit3]
    rfl
  constructor
  · unfold TS.derivePath
    rw [hp1]
  · unfold TS.derivePath
    rw [hp2]

/-- Witness for C9: the path with first segment m44-apostrophe equals
the path m/0-apostrophe derivation for a concrete seed. -/
theorem derivePath_root_marker_lenient_witness :
    jsStartsWithChar 'm' "m44'".data = true ∧
      TS.derivePath [0] ("m44'".data ++ '/' :: "0'".data) =
        TS.derivePath [0] ('m' :: '/' :: "0'".data) :=
  ⟨by decide,
    (derivePath_root_marker_lenient [0] "m44'".data "0'".data (by decide)
      (by decide)).1⟩

/-- Claim C4, counterexample at the concrete input seed 0x00 and path x:
the call fails with the path-format error, yet the instrumented
derivePath (statement order of the source) has already performed one
HMAC computation — the master — so the count of HMACs performed before
the failure is not zero, refuting the before-any-hashing claim. -/
theorem derive_error_before_hmac_refuted :
    ((TS.derivePathCounted [0] "x".data).2 =
        .error .invalidPathFormat) ∧
      (((TS.derivePathCounted [0] "x".data).1 = 0) = False) := by
  constructor
  · decide
  · apply eq_false
    decide

/-- Claim C4 as amended: an invalid path is detected during parsing and
surfaced immediately as a terminal failure of the whole derive call with
no partial result, but the master HMAC has already been computed
(exactly one HMAC, never any per-child HMAC). -/
theorem parse_error_terminal (seed : List Nat) (path : List Char)
    (e : DeriveError) (h : TS.parsePath path = .error e) :
    TS.derivePathCounted seed path = (1, .error e) ∧
      TS.derivePath seed path = .error e := by
  constructor
  · unfold TS.derivePathCounted
    rw [h]
  · unfold TS.derivePath
    rw [h]

/-- Witness for the amended C4 at the spec format-failure example. -/
theorem parse_error_terminal_witness :
    TS.derivePathCounted [0] "44'/0'".data =
        (1, .error .invalidPathFormat) ∧
      TS.derivePath [0] "44'/0'".data = .error .invalidPathFormat :=
  parse_error_terminal [0] "44'/0'".data .invalidPathFormat (by decide)

/-- The seed of the first published SLIP-10 Ed25519 test vector. -/
def testSeed : List Nat := [0, 1, 2, 3, 4, 5, 6, 7, 8, 9, 10, 11, 12, 13, 14, 15]

set_option maxRecDepth 100000 in
set_option maxHeartbeats 2000000 in
/-- Claim C1, refuted at a concrete seed: the master key is NOT the
HMAC-SHA512 keyed by the fixed string bytes with the seed as message —
the code passes the seed as the HMAC key and the fixed string as the
message (arguments swapped), so derive(seed, m) differs from the value
the claim (and SLIP-10) mandates. -/
theorem master_hmac_swapped :
    (TS.derivePath testSeed "m".data =
        Except.ok ⟨(hmacSha512 TS.SEED_KEY testSeed).take 32,
          (hmacSha512 TS.SEED_KEY testSeed).drop 32⟩) = False := by
  apply eq_false
  decide

/-- A parent extended key used to refute claim C2. -/
def testParent : ExtendedKey := ⟨List.replicate 32 1, List.replicate 32 2⟩

set_option maxRecDepth 100000 in
set_option maxHeartbeats 2000000 in
/-- Claim C2, refuted at a concrete parent and index: the child step
builds the correct 37-byte message (zero byte, parent key, big-endian
index) but keys the HMAC with that buffer and passes the parent
chainCode as the message — the reverse of what the claim (and SLIP-10)
mandates — so its result differs from the claimed value. -/
theorem child_hmac_swapped :
    (TS.childStep testParent 0x80000000 =
        (let I := hmacSha512 testParent.chainCode
            (0x00 :: testParent.key ++ toBytesBE 4 0x80000000)
         (⟨I.take 32, I.drop 32⟩ : ExtendedKey))) = False := by
  apply eq_false
  decide

end Slip10
